import Mathlib

/-! Verification of the Sophia facial-expression firmware
(`firmware/friend-esp32-cyd-2_8/src/main_full.cpp`, normal / production mode)
and the adjacent USB serial-link stub.

The embedding is shallow: machine integers are modelled as `ℤ`/`ℕ`
(millisecond timestamps never approach the `uint32_t` wrap in the scenarios
considered, so modular wraparound is not modelled); the display is a
black/white pixel map `ℤ × ℤ → Bool` (the firmware only ever paints
`TFT_BLACK` and `TFT_WHITE` in the mouth/label code); every call to the
Arduino `random` primitive is modelled by an explicit non-deterministic
draw `r : ℕ` supplied as an argument.

Constants that live in the repository's `mouth_patterns.h` header
(`MOUTH_SEGMENTS`, `MOUTH_MAX_DY`, `MOUTH_CLEAR_PAD`, `ANCHOR_PX`,
`NUM_TALK_FRAMES`, the frame tables) are not part of the provided sources,
so they are kept as explicit parameters; every theorem quantifies over
them, which only strengthens the statements.
-/

namespace Sophia

/-- The `MouthMood` enumeration from `mouth_patterns.h` (members are named in
`main_full.cpp`: Neutral, Smile, Frown, Puzzled, Oooh). -/
inductive MouthMood where
  | Neutral | Smile | Frown | Puzzled | Oooh
deriving DecidableEq, Repr

/-- The `enum class SpeechState : uint8_t { Silent=0, Talking };` -/
inductive SpeechState where
  | Silent | Talking
deriving DecidableEq, Repr

/-- A `MouthFrame`: one signed vertical offset per segment for each lip.
The C struct holds fixed arrays of `MOUTH_SEGMENTS` signed ints; we model
each array as a function from the segment index. -/
structure MouthFrame where
  upper : ℕ → ℤ
  lower : ℕ → ℤ

/-- The `randRange(lo, hi)` from `main_full.cpp`:
`lo + (int)(random(0x7fffffff) % (uint32_t)(hi - lo + 1))`.
The draw produced by `random` is the explicit argument `r`. -/
def randRange (lo hi : ℤ) (r : ℕ) : ℤ :=
  lo + ((r % (hi - lo + 1).toNat : ℕ) : ℤ)

/-- The `static const uint8_t DUR_CHOICES_S[] = {5, 10, 15, 20};` -/
def DUR_CHOICES_S : List ℕ := [5, 10, 15, 20]

/-- The `pickDurationMs()`: pick a random index into `DUR_CHOICES_S` and
return the chosen duration in milliseconds. -/
def pickDurationMs (r : ℕ) : ℕ :=
  (DUR_CHOICES_S.getD (randRange 0 3 r).toNat 0) * 1000

/-- The mood ternary chain in `enterSilent`:
`(pick==0) ? Smile : (pick==1) ? Frown : (pick==2) ? Puzzled : Oooh`. -/
def moodFromPick (p : ℤ) : MouthMood :=
  if p = 0 then .Smile
  else if p = 1 then .Frown
  else if p = 2 then .Puzzled
  else .Oooh

/-- The mutable globals of the normal-mode speech engine:
`g_speech`, `g_stateUntilMs`, `g_currMood`, `g_nextMouthSwapMs`,
`g_currTalkIdx`. -/
structure Engine where
  speech : SpeechState
  stateUntil : ℤ
  currMood : MouthMood
  nextSwap : ℤ
  currTalkIdx : ℤ
deriving DecidableEq, Repr

/-- Global initial values at boot:
`g_speech = Silent`, `g_stateUntilMs = 0`, `g_currMood = Neutral`,
`g_nextMouthSwapMs = 0`, `g_currTalkIdx = 0`. -/
def initEngine : Engine :=
  { speech := .Silent, stateUntil := 0, currMood := .Neutral,
    nextSwap := 0, currTalkIdx := 0 }

/-- The `TALK_SWAP_MS_BASE = 160`. -/
def TALK_SWAP_MS_BASE : ℤ := 160

/-- The `TALK_SWAP_JITTER = 40`. -/
def TALK_SWAP_JITTER : ℤ := 40

/-- The `enterSilent()` (state part): set `Silent`, schedule
`g_stateUntilMs = now + pickDurationMs()`, pick a held mood from
`randRange(0,3)`.  `r1` is the duration draw, `r2` the mood draw
(the order the code consumes them). -/
def enterSilent (e : Engine) (now : ℤ) (r1 r2 : ℕ) : Engine :=
  { e with speech := .Silent,
           stateUntil := now + pickDurationMs r1,
           currMood := moodFromPick (randRange 0 3 r2) }

/-- The `enterTalking()` (state part, parameterised by `NUM_TALK_FRAMES = N`):
set `Talking`, schedule the dwell deadline, pick a starting talk index
uniformly with `randRange(0, N-1)`, and schedule the first frame swap at
`now + TALK_SWAP_MS_BASE + randRange(-JITTER, JITTER)`.
`r1` duration draw, `r2` index draw, `r3` jitter draw. -/
def enterTalking (N : ℕ) (e : Engine) (now : ℤ) (r1 r2 r3 : ℕ) : Engine :=
  { e with speech := .Talking,
           stateUntil := now + pickDurationMs r1,
           currTalkIdx := randRange 0 ((N : ℤ) - 1) r2,
           nextSwap := now + TALK_SWAP_MS_BASE +
                       randRange (-TALK_SWAP_JITTER) TALK_SWAP_JITTER r3 }

/-- The `setup()` in normal (non-debug) mode ends with `enterSilent()` from the
boot-time globals. -/
def setupNormal (now : ℤ) (r1 r2 : ℕ) : Engine :=
  enterSilent initEngine now r1 r2

/-- The retry loop in `loop()`:
`while (nextIdx == g_currTalkIdx) nextIdx = randRange(0, NUM_TALK_FRAMES-1);`
modelled with the list of successive draws; `none` when the supplied draws
are exhausted before a distinct index appears. -/
def pickNewTalkIdx (N : ℕ) (i : ℤ) : List ℕ → Option ℤ
  | [] => none
  | r :: rs =>
      let j := randRange 0 ((N : ℤ) - 1) r
      if j = i then pickNewTalkIdx N i rs else some j

/-- The talk-swap branch of `loop()` (normal mode): when `Talking` and
`tNow >= g_nextMouthSwapMs`, pick a fresh index distinct from the current
one and reschedule the swap with fresh jitter (`rj` is the jitter draw). -/
def talkSwapStep (N : ℕ) (e : Engine) (tNow : ℤ) (rs : List ℕ) (rj : ℕ) :
    Option Engine :=
  if e.speech = SpeechState.Talking ∧ e.nextSwap ≤ tNow then
    (pickNewTalkIdx N e.currTalkIdx rs).map fun j =>
      { e with currTalkIdx := j,
               nextSwap := tNow + TALK_SWAP_MS_BASE +
                           randRange (-TALK_SWAP_JITTER) TALK_SWAP_JITTER rj }
  else some e

/-! Section: Display model

The firmware paints only `TFT_BLACK` and `TFT_WHITE` in the code under
study, so a pixel is a `Bool` (`true` = white).  Each LovyanGFX call made
by `drawMouthFrame` / `clearMoodLabel` is a constant-colour axis-aligned
rectangle fill (`drawFastHLine` is a height-1 fill), recorded as an `Op`
and applied in program order. -/

/-- The display surface: colour of each integer pixel coordinate. -/
def Display : Type := ℤ × ℤ → Bool

/-- One rectangle-fill operation: origin `(x, y)`, width `w`, height `h`
(in pixels), colour `c`. -/
structure Op where
  x : ℤ
  y : ℤ
  w : ℕ
  h : ℕ
  c : Bool
deriving DecidableEq, Repr

/-- Whether the rectangle of `op` covers pixel `p`. -/
def Op.covers (op : Op) (p : ℤ × ℤ) : Bool :=
  decide (op.x ≤ p.1) && decide (p.1 < op.x + op.w) &&
  decide (op.y ≤ p.2) && decide (p.2 < op.y + op.h)

/-- Apply one fill to the display. -/
def paint (d : Display) (op : Op) : Display :=
  fun p => if op.covers p then op.c else d p

/-- Apply a list of fills in order (later fills overwrite earlier ones). -/
def applyOps (ops : List Op) (d : Display) : Display :=
  ops.foldl paint d

/-- The `drawFastHLine(x, y, w, c)` as an `Op`. -/
def hlineOp (x y : ℤ) (w : ℕ) (c : Bool) : Op :=
  { x := x, y := y, w := w, h := 1, c := c }

/-! Section: Mouth geometry (`drawMouthFrame`) -/

/-- Clamp of a signed per-segment offset to `[-MOUTH_MAX_DY, MOUTH_MAX_DY]`
exactly as the two `if` statements in `drawMouthFrame` do. -/
def clampDY (maxDY : ℕ) (v : ℤ) : ℤ :=
  if v < -(maxDY : ℤ) then -(maxDY : ℤ)
  else if v > (maxDY : ℤ) then (maxDY : ℤ)
  else v

/-- The right boundary (relative to the inner region's left edge) used for
segment `j` of `MOUTH_SEGMENTS = S` over inner width `innerW`:
`lroundf(step * j)` with `step = innerW / S`, i.e. round-half-up of
`innerW * j / S` (all quantities nonnegative), except that the final
boundary `j = S` is forced to `innerW` ("ensure last segment ends exactly
at the right anchor").  Rational arithmetic stands in for the `float`
computation of the source. -/
def segBound (innerW S j : ℕ) : ℕ :=
  if j = S then innerW else (2 * innerW * j + S) / (2 * S)

/-- The width drawn for segment `i`: `nextX - x`, bumped to at least 1 by
`if (w < 1) w = 1;`. -/
def segWidth (innerW S i : ℕ) : ℕ :=
  max 1 (segBound innerW S (i + 1) - segBound innerW S i)

/-- All drawn inner sub-segment widths, in order. -/
def segWidths (innerW S : ℕ) : List ℕ :=
  (List.range S).map (segWidth innerW S)

/-- The list of fills issued by
`drawMouthFrame(baseY, mouthW, mf)` on a display of width `W`, with the
`mouth_patterns.h` constants (`maxDY` = MOUTH_MAX_DY, `pad` =
MOUTH_CLEAR_PAD, `A` = ANCHOR_PX, `S` = MOUTH_SEGMENTS) as parameters:
clear band, two baseline anchors, then (unless `innerW <= 0` caused an
early return) two clamped lip strokes per inner segment. -/
def mouthFrameOps (W : ℕ) (baseY : ℤ) (mouthW maxDY pad A S : ℕ)
    (mf : MouthFrame) : List Op :=
  let mouthX : ℤ := ((W : ℤ) - (mouthW : ℤ)).tdiv 2
  let clearOp : Op :=
    { x := mouthX, y := baseY - (maxDY : ℤ) - (pad : ℤ),
      w := mouthW, h := 2 * (maxDY + pad) + 1, c := false }
  let anchors : List Op :=
    [hlineOp mouthX baseY A true,
     hlineOp (mouthX + (mouthW : ℤ) - (A : ℤ)) baseY A true]
  if mouthW ≤ 2 * A then clearOp :: anchors
  else
    let innerW := mouthW - 2 * A
    clearOp :: anchors ++ (List.range S).flatMap fun i =>
      let x : ℤ := mouthX + (A : ℤ) + (segBound innerW S i : ℤ)
      let w := segWidth innerW S i
      [hlineOp x (baseY - clampDY maxDY (mf.upper i)) w true,
       hlineOp x (baseY - clampDY maxDY (mf.lower i)) w true]

/-- The `drawMouthFrame` as a display transformer. -/
def drawMouthFrame (W : ℕ) (baseY : ℤ) (mouthW maxDY pad A S : ℕ)
    (mf : MouthFrame) (d : Display) : Display :=
  applyOps (mouthFrameOps W baseY mouthW maxDY pad A S mf) d

/-- The index wrap in `drawMouthTalkIdx`:
`idx = (idx % NUM_TALK_FRAMES + NUM_TALK_FRAMES) % NUM_TALK_FRAMES;`
with C++ truncating `%` (= `Int.tmod`). -/
def wrapIdx (N : ℕ) (idx : ℤ) : ℤ :=
  (idx.tmod (N : ℤ) + (N : ℤ)).tmod (N : ℤ)

/-- The `drawMouthTalkIdx(idx)`: wrap the index, then draw the selected frame
of the talk bank (`frames` stands for the `TALK_FRAMES` array of
`mouth_patterns.h`, indexed over `ℤ` as C array indexing is). -/
def drawMouthTalkIdxOps (W : ℕ) (baseY : ℤ) (mouthW maxDY pad A S : ℕ)
    (N : ℕ) (frames : ℤ → MouthFrame) (idx : ℤ) : List Op :=
  mouthFrameOps W baseY mouthW maxDY pad A S (frames (wrapIdx N idx))

/-- The `clearMoodLabel()`: `fillRect(0, 0, gfx.width(), 20, TFT_BLACK)`. -/
def clearMoodLabelOps (W : ℕ) : List Op :=
  [{ x := 0, y := 0, w := W, h := 20, c := false }]

/-- Display effect of `enterSilent()` in normal (non-debug) mode:
`clearMoodLabel(); drawMouthMood(mood);` — `drawMoodLabel` compiles to a
no-op without `MODE_DEBUG`.  `moodFrame` stands for `moodToFrame` of
`mouth_patterns.h`. -/
def enterSilentOps (W : ℕ) (baseY : ℤ) (mouthW maxDY pad A S : ℕ)
    (moodFrame : MouthMood → MouthFrame) (mood : MouthMood) : List Op :=
  clearMoodLabelOps W ++ mouthFrameOps W baseY mouthW maxDY pad A S (moodFrame mood)

/-- Display effect of `enterTalking()` in normal mode:
`clearMoodLabel(); drawMouthTalkIdx(g_currTalkIdx);`. -/
def enterTalkingOps (W : ℕ) (baseY : ℤ) (mouthW maxDY pad A S : ℕ)
    (N : ℕ) (frames : ℤ → MouthFrame) (idx : ℤ) : List Op :=
  clearMoodLabelOps W ++ drawMouthTalkIdxOps W baseY mouthW maxDY pad A S N frames idx

/-! Section: Debug cycler (`MODE_DEBUG`) -/

/-- The `DEBUG_MOODS[] = {Neutral, Smile, Frown, Puzzled, Oooh}`. -/
def DEBUG_MOODS : List MouthMood :=
  [.Neutral, .Smile, .Frown, .Puzzled, .Oooh]

/-- The `DEBUG_MOOD_HOLD_MS = 5000`. -/
def DEBUG_MOOD_HOLD_MS : ℕ := 5000

/-- The `moodName` from the debug section of `main_full.cpp`. -/
def moodName : MouthMood → String
  | .Neutral => "Neutral"
  | .Smile   => "Smile"
  | .Frown   => "Frown"
  | .Puzzled => "Puzzled"
  | .Oooh    => "Oooh"

/-- Debug-cycler state: `dbg_idx` and `dbg_nextSwitch`. -/
structure DbgState where
  idx : ℕ
  next : ℕ
deriving DecidableEq, Repr

/-- The `setup()` in `MODE_DEBUG`: start at `dbg_idx = 0` (Neutral) and
schedule the first switch at `now + DEBUG_MOOD_HOLD_MS`. -/
def dbgSetup (t0 : ℕ) : DbgState :=
  { idx := 0, next := t0 + DEBUG_MOOD_HOLD_MS }

/-- One `loop()` pass in `MODE_DEBUG` at time `tNow`: when the hold has
elapsed, advance `dbg_idx` cyclically over the 5 moods and re-arm the
5-second hold. -/
def dbgTick (tNow : ℕ) (s : DbgState) : DbgState :=
  if s.next ≤ tNow then
    { idx := (s.idx + 1) % DEBUG_MOODS.length, next := tNow + DEBUG_MOOD_HOLD_MS }
  else s

/-- Debug run with one tick per millisecond: state after the ticks at
times `t0 + 1, …, t0 + k` following `dbgSetup t0`. -/
def dbgRun (t0 : ℕ) : ℕ → DbgState
  | 0 => dbgSetup t0
  | k + 1 => dbgTick (t0 + k + 1) (dbgRun t0 k)

/-- The mood (and label text, via `moodName`) on screen after `dbgRun`. -/
def dbgShownMood (t0 k : ℕ) : MouthMood :=
  DEBUG_MOODS.getD (dbgRun t0 k).idx .Neutral

/-! Section: Serial USB-link stub (`src/unnamed/part_000`)

The per-line handler of its `loop()`: a completed line is processed only
when nonempty, trimmed, and matched case-insensitively.  The state beside
the serial output is the builtin LED (`true` = HIGH).  The reply is
`none` exactly when the raw line is empty (the code skips processing). -/

/-- ASCII `tolower`, as used by Arduino `String::equalsIgnoreCase`. -/
def asciiToLower (c : Char) : Char :=
  if 'A' ≤ c ∧ c ≤ 'Z' then Char.ofNat (c.toNat + 32) else c

/-- Case-fold a character sequence. -/
def lowerChars (s : List Char) : List Char := s.map asciiToLower

/-- C `isspace`: space, `\t`, `\n`, `\v`, `\f`, `\r` — the set Arduino
`String::trim` strips. -/
def isSpaceChar (c : Char) : Bool :=
  c == ' ' || c == '\t' || c == '\n' || c.toNat == 11 || c.toNat == 12 || c == '\r'

/-- Arduino `String::trim`: drop leading and trailing whitespace. -/
def trimChars (s : List Char) : List Char :=
  ((s.dropWhile isSpaceChar).reverse.dropWhile isSpaceChar).reverse

/-- Result of handling one completed input line (a character sequence):
the reply printed on serial, and the new LED level.  `none` exactly when
the raw line is empty (`if (line.length())` skips processing);
`equalsIgnoreCase` is case-folded comparison. -/
def processLine (line : List Char) (led : Bool) : Option (List Char × Bool) :=
  if line = [] then none
  else
    let t := trimChars line
    if lowerChars t = "start smile".data then
      some ("\x7b\"ack\":\"start_smile\"\x7d".data, true)
    else if lowerChars t = "stop".data then
      some ("\x7b\"ack\":\"stop\"\x7d".data, false)
    else
      some ("\x7b\"error\":\"unknown_cmd\",\"cmd\":\"".data ++ t ++ "\"\x7d".data,
            led)

example : pickDurationMs 0 = 5000 := by decide
example : pickDurationMs 5 = 10000 := by decide
example : pickDurationMs 7 = 20000 := by decide
example : moodFromPick (randRange 0 3 6) = MouthMood.Puzzled := by decide
example : pickNewTalkIdx 2 0 [2, 1] = some 1 := by decide

/-! Section: Helper lemmas about the random primitives -/

/-- The `randRange(0, n-1)` is reduction modulo `n` (for `n ≥ 1`). -/
lemma randRange_zero_sub_one (n r : ℕ) (_hn : 1 ≤ n) :
    randRange 0 ((n : ℤ) - 1) r = ((r % n : ℕ) : ℤ) := by
  unfold randRange
  have h1 : ((n : ℤ) - 1 - 0 + 1) = (n : ℤ) := by ring
  rw [h1, Int.toNat_natCast, zero_add]

/-- The `randRange(0, 3)` is reduction modulo 4. -/
lemma randRange_zero_three (r : ℕ) :
    randRange 0 3 r = ((r % 4 : ℕ) : ℤ) := by
  have h := randRange_zero_sub_one 4 r (by norm_num)
  norm_num at h
  exact h

/-- The jitter draw `randRange(-TALK_SWAP_JITTER, TALK_SWAP_JITTER)` lies
in `[-40, 40]`. -/
lemma randRange_jitter_bounds (r : ℕ) :
    -40 ≤ randRange (-TALK_SWAP_JITTER) TALK_SWAP_JITTER r ∧
    randRange (-TALK_SWAP_JITTER) TALK_SWAP_JITTER r ≤ 40 := by
  unfold randRange TALK_SWAP_JITTER
  have h1 : ((40 : ℤ) - -40 + 1) = 81 := by norm_num
  rw [h1]
  have h2 : r % (81 : ℤ).toNat < 81 := Nat.mod_lt _ (by norm_num)
  omega

/-- The `pickDurationMs` always yields one of the four allowed values. -/
lemma pickDurationMs_mem (r : ℕ) :
    pickDurationMs r ∈ ([5000, 10000, 15000, 20000] : List ℕ) := by
  unfold pickDurationMs
  rw [randRange_zero_three, Int.toNat_natCast]
  have h : r % 4 < 4 := Nat.mod_lt _ (by norm_num)
  rcases (by omega : r % 4 = 0 ∨ r % 4 = 1 ∨ r % 4 = 2 ∨ r % 4 = 3) with
    h0 | h0 | h0 | h0 <;> rw [h0] <;> simp [DUR_CHOICES_S]

/-- The `moodFromPick` never returns `Neutral` and always one of the four
silence moods. -/
lemma moodFromPick_cases (p : ℤ) :
    (moodFromPick p = .Smile ∨ moodFromPick p = .Frown ∨
     moodFromPick p = .Puzzled ∨ moodFromPick p = .Oooh) ∧
    moodFromPick p ≠ .Neutral := by
  unfold moodFromPick
  split_ifs <;> simp

/-- The no-repeat retry loop: whatever index it settles on is distinct
from the current one and in range (for `N ≥ 1`). -/
lemma pickNewTalkIdx_spec (N : ℕ) (i : ℤ) (rs : List ℕ) (j : ℤ)
    (hN : 1 ≤ N) (h : pickNewTalkIdx N i rs = some j) :
    j ≠ i ∧ 0 ≤ j ∧ j < N := by
  induction rs with
  | nil => simp [pickNewTalkIdx] at h
  | cons r rs ih =>
      rw [pickNewTalkIdx] at h
      by_cases hji : randRange 0 ((N : ℤ) - 1) r = i
      · rw [if_pos hji] at h
        exact ih h
      · rw [if_neg hji] at h
        have hj : j = randRange 0 ((N : ℤ) - 1) r := by
          injection h with h'
          exact h'.symm
        subst hj
        rw [randRange_zero_sub_one N r hN] at hji ⊢
        refine ⟨hji, by positivity, ?_⟩
        exact_mod_cast Nat.mod_lt r (by omega)

/-! Section: C4: dwell durations -/

/-- C4: every dwell duration produced at a Silent/Talking transition is
one of {5, 10, 15, 20} seconds (in milliseconds), and both `enterSilent`
and `enterTalking` set the new state deadline to `now + duration`. -/
theorem sophia_c4_dwell_durations (e : Engine) (N : ℕ) (now : ℤ)
    (r1 r2 r3 : ℕ) :
    pickDurationMs r1 ∈ ([5000, 10000, 15000, 20000] : List ℕ) ∧
    (enterSilent e now r1 r2).stateUntil = now + (pickDurationMs r1 : ℤ) ∧
    (enterTalking N e now r1 r2 r3).stateUntil = now + (pickDurationMs r1 : ℤ) := by
  exact ⟨pickDurationMs_mem r1, rfl, rfl⟩

/-! Section: C6: silence moods and the boot state -/

/-- C6: every entry into `Silent` holds a mood drawn from
{Smile, Frown, Puzzled, Oooh}, never `Neutral`; and in normal mode the
boot sequence (`setup()` → `enterSilent()`) leaves the engine `Silent`
with such a mood and a dwell from the allowed set. -/
theorem sophia_c6_silent_mood_and_boot (e : Engine) (now : ℤ) (r1 r2 : ℕ) :
    ((enterSilent e now r1 r2).currMood = .Smile ∨
     (enterSilent e now r1 r2).currMood = .Frown ∨
     (enterSilent e now r1 r2).currMood = .Puzzled ∨
     (enterSilent e now r1 r2).currMood = .Oooh) ∧
    (enterSilent e now r1 r2).currMood ≠ .Neutral ∧
    (setupNormal now r1 r2).speech = .Silent ∧
    (setupNormal now r1 r2).currMood ≠ .Neutral ∧
    pickDurationMs r1 ∈ ([5000, 10000, 15000, 20000] : List ℕ) ∧
    (setupNormal now r1 r2).stateUntil = now + (pickDurationMs r1 : ℤ) := by
  have hm := moodFromPick_cases (randRange 0 3 r2)
  exact ⟨hm.1, hm.2, rfl, hm.2, pickDurationMs_mem r1, rfl⟩

/-! Section: C5: talk-swap scheduling -/

/-- C5: on entering `Talking` the first swap is scheduled at
`now + 160 ± 40` ms (delay in `[120, 200]`), and every subsequent swap
performed while `Talking` reschedules with the same base and a fresh
jitter from the same range. -/
theorem sophia_c5_swap_schedule (N : ℕ) (e e' : Engine) (now tNow : ℤ)
    (r1 r2 r3 : ℕ) (rs : List ℕ) (rj : ℕ) :
    (now + 120 ≤ (enterTalking N e now r1 r2 r3).nextSwap ∧
     (enterTalking N e now r1 r2 r3).nextSwap ≤ now + 200) ∧
    (e.speech = SpeechState.Talking → e.nextSwap ≤ tNow →
     talkSwapStep N e tNow rs rj = some e' →
     tNow + 120 ≤ e'.nextSwap ∧ e'.nextSwap ≤ tNow + 200) := by
  constructor
  · have hj := randRange_jitter_bounds r3
    show now + 120 ≤ now + TALK_SWAP_MS_BASE + _ ∧
         now + TALK_SWAP_MS_BASE + _ ≤ now + 200
    unfold TALK_SWAP_MS_BASE
    omega
  · intro hsp hdl hstep
    unfold talkSwapStep at hstep
    rw [if_pos ⟨hsp, hdl⟩] at hstep
    cases hpick : pickNewTalkIdx N e.currTalkIdx rs with
    | none => rw [hpick] at hstep; simp at hstep
    | some j =>
        rw [hpick] at hstep
        simp only [Option.map_some'] at hstep
        have hj := randRange_jitter_bounds rj
        have hns : e'.nextSwap =
            tNow + TALK_SWAP_MS_BASE +
              randRange (-TALK_SWAP_JITTER) TALK_SWAP_JITTER rj := by
          rw [← Option.some_inj.mp hstep]
        rw [hns]
        unfold TALK_SWAP_MS_BASE
        omega

/-- Witness for C5 at a concrete input: entering Talking at `now = 0`
with all-zero draws schedules the first swap at 120 ms, and a swap at
`tNow = 0` (draw list `[1]`, zero jitter draw) reschedules to 120 ms. -/
theorem sophia_c5_swap_schedule_witness :
    ((0 : ℤ) + 120 ≤ (enterTalking 2 initEngine 0 0 0 0).nextSwap ∧
     (enterTalking 2 initEngine 0 0 0 0).nextSwap ≤ (0 : ℤ) + 200) ∧
    ((0 : ℤ) + 120 ≤ ({ speech := .Talking, stateUntil := 0, currMood := .Neutral,
                        nextSwap := 120, currTalkIdx := 1 } : Engine).nextSwap ∧
     ({ speech := .Talking, stateUntil := 0, currMood := .Neutral,
        nextSwap := 120, currTalkIdx := 1 } : Engine).nextSwap ≤ (0 : ℤ) + 200) := by
  constructor
  · exact (sophia_c5_swap_schedule 2 initEngine initEngine 0 0 0 0 0 [] 0).1
  · exact (sophia_c5_swap_schedule 2
      { speech := .Talking, stateUntil := 0, currMood := .Neutral,
        nextSwap := 0, currTalkIdx := 0 }
      { speech := .Talking, stateUntil := 0, currMood := .Neutral,
        nextSwap := 120, currTalkIdx := 1 }
      0 0 0 0 0 [1] 0).2 rfl (by decide) (by decide)

/-! Section: C2: no-repeat talk-frame selection -/

/-- C2: every talk-frame swap performed while `Talking` with current
index `i` selects a new index that differs from `i` and lies in
`[0, NUM_TALK_FRAMES - 1]` (under the claim's assumption
`NUM_TALK_FRAMES ≥ 2`; when the modelled draw list runs out before the
loop exits, the step yields no result and no swap happens). -/
theorem sophia_c2_no_repeat_swap (N : ℕ) (e e' : Engine) (tNow : ℤ)
    (rs : List ℕ) (rj : ℕ) (hN : 2 ≤ N)
    (hsp : e.speech = SpeechState.Talking) (hdl : e.nextSwap ≤ tNow)
    (hstep : talkSwapStep N e tNow rs rj = some e') :
    e'.currTalkIdx ≠ e.currTalkIdx ∧
    0 ≤ e'.currTalkIdx ∧ e'.currTalkIdx < N := by
  unfold talkSwapStep at hstep
  rw [if_pos ⟨hsp, hdl⟩] at hstep
  cases hpick : pickNewTalkIdx N e.currTalkIdx rs with
  | none => rw [hpick] at hstep; simp at hstep
  | some j =>
      rw [hpick] at hstep
      simp only [Option.map_some'] at hstep
      have hspec := pickNewTalkIdx_spec N e.currTalkIdx rs j (by omega) hpick
      have hidx : e'.currTalkIdx = j := by
        rw [← Option.some_inj.mp hstep]
      rw [hidx]
      exact hspec

/-- Witness for C2 at a concrete input: a swap at `tNow = 0` from index 0
with draw list `[1]` in a 2-frame bank yields index 1. -/
theorem sophia_c2_no_repeat_swap_witness :
    ({ speech := .Talking, stateUntil := 0, currMood := .Neutral,
       nextSwap := 120, currTalkIdx := 1 } : Engine).currTalkIdx ≠
      ({ speech := .Talking, stateUntil := 0, currMood := .Neutral,
         nextSwap := 0, currTalkIdx := 0 } : Engine).currTalkIdx ∧
    0 ≤ ({ speech := .Talking, stateUntil := 0, currMood := .Neutral,
           nextSwap := 120, currTalkIdx := 1 } : Engine).currTalkIdx ∧
    ({ speech := .Talking, stateUntil := 0, currMood := .Neutral,
       nextSwap := 120, currTalkIdx := 1 } : Engine).currTalkIdx < (2 : ℕ) := by
  exact sophia_c2_no_repeat_swap 2
    { speech := .Talking, stateUntil := 0, currMood := .Neutral,
      nextSwap := 0, currTalkIdx := 0 }
    { speech := .Talking, stateUntil := 0, currMood := .Neutral,
      nextSwap := 120, currTalkIdx := 1 }
    0 [1] 0 (by norm_num) rfl (by decide) (by decide)

/-! Section: Pointwise theory of `applyOps` -/

/-- One paint step at a fixed pixel. -/
def paintAt (p : ℤ × ℤ) (v : Bool) (op : Op) : Bool :=
  if op.covers p then op.c else v

/-- The `applyOps` acts pointwise as a fold of `paintAt`. -/
lemma applyOps_apply (ops : List Op) (d : Display) (p : ℤ × ℤ) :
    applyOps ops d p = ops.foldl (paintAt p) (d p) := by
  induction ops generalizing d with
  | nil => rfl
  | cons op rest ih =>
      show applyOps rest (paint d op) p = _
      rw [ih]
      rfl

/-- If no op in the list covers `p`, the fold leaves the value alone. -/
lemma foldl_paintAt_nocover (ops : List Op) (p : ℤ × ℤ)
    (h : ∀ op ∈ ops, op.covers p = false) (v : Bool) :
    ops.foldl (paintAt p) v = v := by
  induction ops generalizing v with
  | nil => rfl
  | cons op rest ih =>
      have hop := h op (List.mem_cons_self op rest)
      show rest.foldl (paintAt p) (paintAt p v op) = v
      rw [paintAt, hop]
      exact ih (fun o ho => h o (List.mem_cons_of_mem op ho)) v

/-- If some op in the list covers `p`, the fold's result ignores the
initial value. -/
lemma foldl_paintAt_cover (ops : List Op) (p : ℤ × ℤ)
    (h : ∃ op ∈ ops, op.covers p = true) (v w : Bool) :
    ops.foldl (paintAt p) v = ops.foldl (paintAt p) w := by
  induction ops generalizing v w with
  | nil => obtain ⟨op, hop, _⟩ := h; exact absurd hop (List.not_mem_nil op)
  | cons op rest ih =>
      show rest.foldl (paintAt p) (paintAt p v op) =
           rest.foldl (paintAt p) (paintAt p w op)
      by_cases hcover : op.covers p = true
      · simp only [paintAt, hcover, if_true]
      · obtain ⟨o, ho, hoc⟩ := h
        rcases List.mem_cons.mp ho with he | ht
        · exact absurd (he ▸ hoc) hcover
        · exact ih ⟨o, ht, hoc⟩ _ _

/-- Applying the same op list twice is the same as applying it once. -/
lemma applyOps_idem (ops : List Op) (d : Display) :
    applyOps ops (applyOps ops d) = applyOps ops d := by
  funext p
  rw [applyOps_apply, applyOps_apply]
  by_cases h : ∃ op ∈ ops, op.covers p = true
  · exact foldl_paintAt_cover ops p h _ _
  · push_neg at h
    have h' : ∀ op ∈ ops, op.covers p = false := by
      intro op hop
      exact Bool.eq_false_iff.mpr (fun hc => (h op hop) hc)
    rw [foldl_paintAt_nocover ops p h', foldl_paintAt_nocover ops p h']

/-- Pixels covered by no op keep their previous colour. -/
lemma applyOps_nocover (ops : List Op) (d : Display) (p : ℤ × ℤ)
    (h : ∀ op ∈ ops, op.covers p = false) :
    applyOps ops d p = d p := by
  rw [applyOps_apply]
  exact foldl_paintAt_nocover ops p h (d p)

/-! Section: C9: the mouth frame draw is deterministic and idempotent -/

/-- C9: for every frame and bounding box, drawing the frame twice in
succession leaves exactly the pixels that drawing it once leaves
(`drawMouthFrame` is a deterministic function of its arguments, so
determinism is inherent in the model). -/
theorem sophia_c9_draw_idempotent (W : ℕ) (baseY : ℤ)
    (mouthW maxDY pad A S : ℕ) (mf : MouthFrame) (d : Display) :
    drawMouthFrame W baseY mouthW maxDY pad A S mf
      (drawMouthFrame W baseY mouthW maxDY pad A S mf d) =
    drawMouthFrame W baseY mouthW maxDY pad A S mf d :=
  applyOps_idem _ d

/-! Section: C3: clamping of offsets, wrapping of talk indices -/

/-- The clamp of `drawMouthFrame` lands in `[-maxDY, maxDY]`. -/
lemma clampDY_bounds (maxDY : ℕ) (v : ℤ) :
    -(maxDY : ℤ) ≤ clampDY maxDY v ∧ clampDY maxDY v ≤ (maxDY : ℤ) := by
  unfold clampDY
  split_ifs <;> omega

/-- Truncating remainder by a positive modulus is greater than its
negation (companion to `Int.tmod_lt_of_pos`). -/
lemma neg_lt_tmod (a : ℤ) {N : ℤ} (h : 0 < N) : -N < a.tmod N := by
  match a, N, h with
  | Int.ofNat m, N, h =>
      have h2 := Int.tmod_nonneg N (Int.ofNat_nonneg m)
      show -N < ((m : ℤ)).tmod N
      have h2' : 0 ≤ ((m : ℤ)).tmod N := h2
      omega
  | Int.negSucc m, Int.ofNat n, h =>
      have hn : 0 < n := by
        by_contra hc
        have hz : n = 0 := by omega
        subst hz
        exact absurd h (by decide)
      have hlt : (m + 1) % n < n := Nat.mod_lt _ hn
      show -((n : ℤ)) < -(((m + 1) % n : ℕ) : ℤ)
      omega

/-- The double-`%` wrap of `drawMouthTalkIdx` maps any C `int` index into
`[0, N-1]` (for `N ≥ 1`). -/
lemma wrapIdx_bounds (N : ℕ) (idx : ℤ) (hN : 1 ≤ N) :
    0 ≤ wrapIdx N idx ∧ wrapIdx N idx < N := by
  have hNpos : (0 : ℤ) < N := by exact_mod_cast hN
  have h1 : idx.tmod N < N := Int.tmod_lt_of_pos idx hNpos
  have h2 : -(N : ℤ) < idx.tmod N := neg_lt_tmod idx hNpos
  have hx : 0 ≤ idx.tmod N + N := by omega
  unfold wrapIdx
  rw [Int.tmod_eq_emod hx (le_of_lt hNpos)]
  exact ⟨Int.emod_nonneg _ (ne_of_gt hNpos), Int.emod_lt_of_pos _ hNpos⟩

/-- Shape of every op issued by `drawMouthFrame`: either the black clear
band, or a white 1-pixel-high stroke whose row is within `maxDY` of the
baseline (anchors sit exactly on the baseline; lip strokes are drawn at
`baseY - clamped offset`). -/
lemma mouthFrameOps_mem_spec (W : ℕ) (baseY : ℤ) (mouthW maxDY pad A S : ℕ)
    (mf : MouthFrame) (op : Op)
    (hop : op ∈ mouthFrameOps W baseY mouthW maxDY pad A S mf) :
    (op.c = false ∧ op.y = baseY - (maxDY : ℤ) - (pad : ℤ)) ∨
    (op.c = true ∧ op.h = 1 ∧
      baseY - (maxDY : ℤ) ≤ op.y ∧ op.y ≤ baseY + (maxDY : ℤ)) := by
  unfold mouthFrameOps at hop
  by_cases hA : mouthW ≤ 2 * A
  · rw [if_pos hA] at hop
    rcases List.mem_cons.mp hop with he | hop
    · exact Or.inl (by rw [he]; exact ⟨rfl, rfl⟩)
    rcases List.mem_cons.mp hop with he | hop
    · refine Or.inr (by rw [he]; exact ⟨rfl, rfl, by simp [hlineOp], by simp [hlineOp]⟩)
    rcases List.mem_cons.mp hop with he | hop
    · refine Or.inr (by rw [he]; exact ⟨rfl, rfl, by simp [hlineOp], by simp [hlineOp]⟩)
    · exact absurd hop (List.not_mem_nil op)
  · rw [if_neg hA] at hop
    rcases List.mem_cons.mp hop with he | hop
    · exact Or.inl (by rw [he]; exact ⟨rfl, rfl⟩)
    rcases List.mem_append.mp hop with hop | hop
    · rcases List.mem_cons.mp hop with he | hop
      · refine Or.inr (by rw [he]; exact ⟨rfl, rfl, by simp [hlineOp], by simp [hlineOp]⟩)
      rcases List.mem_cons.mp hop with he | hop
      · refine Or.inr (by rw [he]; exact ⟨rfl, rfl, by simp [hlineOp], by simp [hlineOp]⟩)
      · exact absurd hop (List.not_mem_nil op)
    · rcases List.mem_flatMap.mp hop with ⟨i, _, hopi⟩
      have hcb := clampDY_bounds maxDY (mf.upper i)
      have hcb2 := clampDY_bounds maxDY (mf.lower i)
      rcases List.mem_cons.mp hopi with he | hopi
      · refine Or.inr (by rw [he]; exact ⟨rfl, rfl, by simp [hlineOp]; omega, by simp [hlineOp]; omega⟩)
      rcases List.mem_cons.mp hopi with he | hopi
      · refine Or.inr (by rw [he]; exact ⟨rfl, rfl, by simp [hlineOp]; omega, by simp [hlineOp]; omega⟩)
      · exact absurd hopi (List.not_mem_nil op)

/-- C3: (a) every white stroke drawn by the mouth renderer sits within
`[-MOUTH_MAX_DY, MOUTH_MAX_DY]` of the baseline, whatever offsets the
source frame holds; (b) `drawMouthTalkIdx` wraps any integer index
(negative or oversized) into `[0, NUM_TALK_FRAMES-1]` and draws the frame
bank at exactly that wrapped index. -/
theorem sophia_c3_clamp_and_wrap (W : ℕ) (baseY : ℤ)
    (mouthW maxDY pad A S : ℕ) (mf : MouthFrame)
    (N : ℕ) (frames : ℤ → MouthFrame) (idx : ℤ) :
    (∀ op ∈ mouthFrameOps W baseY mouthW maxDY pad A S mf, op.c = true →
      baseY - (maxDY : ℤ) ≤ op.y ∧ op.y ≤ baseY + (maxDY : ℤ)) ∧
    (1 ≤ N → 0 ≤ wrapIdx N idx ∧ wrapIdx N idx < N) ∧
    drawMouthTalkIdxOps W baseY mouthW maxDY pad A S N frames idx =
      mouthFrameOps W baseY mouthW maxDY pad A S (frames (wrapIdx N idx)) := by
  refine ⟨?_, fun hN => wrapIdx_bounds N idx hN, rfl⟩
  intro op hop hc
  rcases mouthFrameOps_mem_spec W baseY mouthW maxDY pad A S mf op hop with
    ⟨hfalse, _⟩ | ⟨_, _, hlo, hhi⟩
  · rw [hc] at hfalse; exact absurd hfalse (by simp)
  · exact ⟨hlo, hhi⟩

/-- Witness for C3 at concrete inputs: the left anchor op of a degenerate
zero-size mouth satisfies the offset bounds, and the wrap of index `-5`
into a 1-frame bank lies in `[0, 0]`. -/
theorem sophia_c3_clamp_and_wrap_witness :
    ((0 : ℤ) - ((0 : ℕ) : ℤ) ≤ (hlineOp 0 0 0 true).y ∧
      (hlineOp 0 0 0 true).y ≤ (0 : ℤ) + ((0 : ℕ) : ℤ)) ∧
    (0 ≤ wrapIdx 1 (-5) ∧ wrapIdx 1 (-5) < (1 : ℕ)) := by
  refine ⟨?_, ?_⟩
  · exact (sophia_c3_clamp_and_wrap 0 0 0 0 0 0 0 ⟨fun _ => 0, fun _ => 0⟩
      1 (fun _ => ⟨fun _ => 0, fun _ => 0⟩) (-5)).1
      (hlineOp 0 0 0 true) (by decide) rfl
  · exact (sophia_c3_clamp_and_wrap 0 0 0 0 0 0 0 ⟨fun _ => 0, fun _ => 0⟩
      1 (fun _ => ⟨fun _ => 0, fun _ => 0⟩) (-5)).2.1 (by norm_num)

/-! Section: C10: production-mode state entries blank the label band -/

/-- An op whose top row lies strictly below a pixel's row does not cover
that pixel. -/
lemma Op.covers_eq_false_of_lt (op : Op) (p : ℤ × ℤ) (h : p.2 < op.y) :
    op.covers p = false := by
  unfold Op.covers
  simp only [Bool.and_eq_false_iff, decide_eq_false_iff_not, not_le, not_lt]
  omega

/-- No op of `drawMouthFrame` reaches above the clear band
(`baseY - maxDY - pad`). -/
lemma mouthFrameOps_above_clear (W : ℕ) (baseY : ℤ)
    (mouthW maxDY pad A S : ℕ) (mf : MouthFrame) (p : ℤ × ℤ)
    (h : p.2 < baseY - (maxDY : ℤ) - (pad : ℤ)) :
    ∀ op ∈ mouthFrameOps W baseY mouthW maxDY pad A S mf,
      op.covers p = false := by
  intro op hop
  rcases mouthFrameOps_mem_spec W baseY mouthW maxDY pad A S mf op hop with
    ⟨_, hy⟩ | ⟨_, _, hlo, _⟩
  · exact Op.covers_eq_false_of_lt op p (by omega)
  · exact Op.covers_eq_false_of_lt op p (by omega)

/-- C10: in normal (production) mode, every entry into `Silent` and every
entry into `Talking` paints every label-band pixel that lies above the
mouth's clear band black — a full-width 20-pixel-high blank — even though
no label is ever drawn in production; such pixels are outside the mouth
region, so state transitions mutate display pixels outside it. -/
theorem sophia_c10_label_band_blanked (W : ℕ) (baseY : ℤ)
    (mouthW maxDY pad A S : ℕ)
    (moodFrame : MouthMood → MouthFrame) (mood : MouthMood)
    (N : ℕ) (frames : ℤ → MouthFrame) (idx : ℤ)
    (d : Display) (x y : ℤ)
    (hx0 : 0 ≤ x) (hxW : x < (W : ℤ)) (hy0 : 0 ≤ y) (hy20 : y < 20)
    (hband : y < baseY - (maxDY : ℤ) - (pad : ℤ)) :
    applyOps (enterSilentOps W baseY mouthW maxDY pad A S moodFrame mood)
      d (x, y) = false ∧
    applyOps (enterTalkingOps W baseY mouthW maxDY pad A S N frames idx)
      d (x, y) = false := by
  have hclear : applyOps (clearMoodLabelOps W) d (x, y) = false := by
    unfold clearMoodLabelOps applyOps
    show paint d _ (x, y) = false
    unfold paint
    rw [if_pos]
    unfold Op.covers
    simp only [Bool.and_eq_true, decide_eq_true_eq]
    refine ⟨⟨⟨hx0, ?_⟩, hy0⟩, ?_⟩ <;> simpa using by omega
  constructor
  · unfold enterSilentOps
    rw [applyOps, List.foldl_append, ← applyOps, ← applyOps]
    rw [applyOps_nocover _ _ _
      (mouthFrameOps_above_clear W baseY mouthW maxDY pad A S _ (x, y) hband)]
    exact hclear
  · unfold enterTalkingOps drawMouthTalkIdxOps
    rw [applyOps, List.foldl_append, ← applyOps, ← applyOps]
    rw [applyOps_nocover _ _ _
      (mouthFrameOps_above_clear W baseY mouthW maxDY pad A S _ (x, y) hband)]
    exact hclear

/-- Witness for C10 at concrete inputs: with the real layout numbers
(320×240 screen, baseline 222) an all-white display ends with black at
label-band pixel (5, 5) after either state entry. -/
theorem sophia_c10_label_band_blanked_witness :
    applyOps (enterSilentOps 320 222 117 10 2 2 6
        (fun _ => ⟨fun _ => 0, fun _ => 0⟩) .Smile)
      (fun _ => true) (5, 5) = false ∧
    applyOps (enterTalkingOps 320 222 117 10 2 2 6 4
        (fun _ => ⟨fun _ => 3, fun _ => -3⟩) (-7))
      (fun _ => true) (5, 5) = false := by
  exact sophia_c10_label_band_blanked 320 222 117 10 2 2 6
    (fun _ => ⟨fun _ => 0, fun _ => 0⟩) .Smile 4
    (fun _ => ⟨fun _ => 3, fun _ => -3⟩) (-7) (fun _ => true) 5 5
    (by norm_num) (by norm_num) (by norm_num) (by norm_num) (by norm_num)

/-! Section: C1: exactness of the inner-segment partition -/

/-- The first boundary is the inner region's left edge. -/
lemma segBound_zero (n S : ℕ) (hS : 1 ≤ S) : segBound n S 0 = 0 := by
  unfold segBound
  rw [if_neg (by omega)]
  exact Nat.div_eq_of_lt (by omega)

/-- The forced final boundary is the inner region's right edge. -/
lemma segBound_last (n S : ℕ) : segBound n S S = n := by
  unfold segBound
  rw [if_pos rfl]

/-- When the inner width is at least the segment count, consecutive
boundaries are strictly increasing (each rounded sub-segment is at least
one pixel wide, so the `w < 1` bump never fires). -/
lemma segBound_succ_ge (n S i : ℕ) (hS : 1 ≤ S) (hn : S ≤ n) (hi : i < S) :
    segBound n S i + 1 ≤ segBound n S (i + 1) := by
  unfold segBound
  rcases Nat.lt_or_ge (i + 1) S with hlt | hge
  · rw [if_neg (by omega), if_neg (by omega)]
    have e1 : 2 * n * (i + 1) + S = (2 * n * i + S) + 2 * n := by ring
    rw [e1]
    calc (2 * n * i + S) / (2 * S) + 1
        = ((2 * n * i + S) + 2 * S) / (2 * S) :=
          (Nat.add_div_right _ (by omega)).symm
      _ ≤ ((2 * n * i + S) + 2 * n) / (2 * S) :=
          Nat.div_le_div_right (by omega)
  · have hiS : i + 1 = S := by omega
    rw [if_neg (by omega), if_pos hiS]
    have hmul : 2 * n * i + S < n * (2 * S) := by
      have e : n * (2 * S) = 2 * n * i + 2 * n := by
        rw [← hiS]; ring
      omega
    have hdiv : (2 * n * i + S) / (2 * S) < n :=
      (Nat.div_lt_iff_lt_mul (by omega)).mpr hmul
    omega

/-- With enough inner width the `max 1` bump is inert. -/
lemma segWidth_eq_sub (n S i : ℕ) (hS : 1 ≤ S) (hn : S ≤ n) (hi : i < S) :
    segWidth n S i = segBound n S (i + 1) - segBound n S i := by
  have h := segBound_succ_ge n S i hS hn hi
  unfold segWidth
  omega

/-- Telescoping sum of consecutive differences of a step-monotone `f`. -/
lemma sum_range_consecutive_sub (f : ℕ → ℕ) :
    ∀ k : ℕ, (∀ i, i < k → f i ≤ f (i + 1)) →
      ((List.range k).map (fun i => f (i + 1) - f i)).sum + f 0 = f k := by
  intro k
  induction k with
  | zero => simp
  | succ k ih =>
      intro h
      rw [List.range_succ, List.map_append, List.sum_append]
      have hk := ih (fun i hi => h i (by omega))
      have hstep := h k (by omega)
      simp only [List.map_cons, List.map_nil, List.sum_cons, List.sum_nil]
      omega

/-- The drawn inner widths sum exactly to the inner width when it is at
least the segment count. -/
lemma segWidths_sum (n S : ℕ) (hS : 1 ≤ S) (hn : S ≤ n) :
    (segWidths n S).sum = n := by
  unfold segWidths
  have hmap : (List.range S).map (segWidth n S) =
      (List.range S).map (fun i => segBound n S (i + 1) - segBound n S i) := by
    apply List.map_congr_left
    intro i hi
    exact segWidth_eq_sub n S i hS hn (List.mem_range.mp hi)
  rw [hmap]
  have := sum_range_consecutive_sub (segBound n S) S
    (fun i hi => by have := segBound_succ_ge n S i hS hn hi; omega)
  rw [segBound_zero n S hS, segBound_last n S] at this
  omega

/-- C1 as stated is refuted by a degenerate geometry: with mouth width 5,
anchors of 2 and 4 segments the inner width is 1, every drawn width is
bumped to 1, the widths sum to 4 (so widths + anchors = 8 ≠ 5) and the
last drawn segment overshoots the right anchor's left edge. -/
theorem sophia_c1_partition_counterexample :
    (segWidths (5 - 2 * 2) 4).sum + 2 * 2 ≠ 5 ∧
    segBound (5 - 2 * 2) 4 3 + segWidth (5 - 2 * 2) 4 3 ≠ 5 - 2 * 2 := by
  decide

/-- C1 amended: whenever the inner width `mouthW - 2·ANCHOR_PX` is at
least the segment count (in particular in the firmware's real geometry),
the partition is exact — the drawn inner widths plus the two anchor
lengths sum to the mouth width with no gap and no overlap (each drawn
width is exactly the boundary difference and consecutive segments abut),
and the last inner segment's right edge coincides with the right anchor's
left edge. -/
theorem sophia_c1_partition_amended (W mouthW A S : ℕ)
    (hS : 1 ≤ S) (h : S + 2 * A ≤ mouthW) :
    (segWidths (mouthW - 2 * A) S).sum + 2 * A = mouthW ∧
    (∀ i, i < S → segWidth (mouthW - 2 * A) S i =
       segBound (mouthW - 2 * A) S (i + 1) - segBound (mouthW - 2 * A) S i) ∧
    (∀ i, i < S → segBound (mouthW - 2 * A) S i + segWidth (mouthW - 2 * A) S i =
       segBound (mouthW - 2 * A) S (i + 1)) ∧
    ((W : ℤ) - (mouthW : ℤ)).tdiv 2 + (A : ℤ) +
        (segBound (mouthW - 2 * A) S (S - 1) : ℤ) +
        (segWidth (mouthW - 2 * A) S (S - 1) : ℤ) =
      ((W : ℤ) - (mouthW : ℤ)).tdiv 2 + (mouthW : ℤ) - (A : ℤ) := by
  have hn : S ≤ mouthW - 2 * A := by omega
  have habut : ∀ i, i < S →
      segBound (mouthW - 2 * A) S i + segWidth (mouthW - 2 * A) S i =
        segBound (mouthW - 2 * A) S (i + 1) := by
    intro i hi
    rw [segWidth_eq_sub _ S i hS hn hi]
    have := segBound_succ_ge _ S i hS hn hi
    omega
  refine ⟨?_, fun i hi => segWidth_eq_sub _ S i hS hn hi, habut, ?_⟩
  · rw [segWidths_sum _ S hS hn]
    omega
  · have hlast := habut (S - 1) (by omega)
    have hSS : S - 1 + 1 = S := by omega
    rw [hSS, segBound_last] at hlast
    set t := ((W : ℤ) - (mouthW : ℤ)).tdiv 2 with ht
    have hcast : (segBound (mouthW - 2 * A) S (S - 1) : ℤ) +
        (segWidth (mouthW - 2 * A) S (S - 1) : ℤ) =
        ((mouthW - 2 * A : ℕ) : ℤ) := by exact_mod_cast hlast
    push_cast at hcast
    omega

/-- Witness for C1 (amended) at the firmware's real geometry: a 320-wide
screen, mouth width 117, 2-pixel anchors and 6 segments partition
exactly. -/
theorem sophia_c1_partition_amended_witness :
    (segWidths (117 - 2 * 2) 6).sum + 2 * 2 = 117 ∧
    segBound (117 - 2 * 2) 6 5 + segWidth (117 - 2 * 2) 6 5 =
      segBound (117 - 2 * 2) 6 6 ∧
    ((320 : ℤ) - (117 : ℤ)).tdiv 2 + ((2 : ℕ) : ℤ) +
        (segBound (117 - 2 * 2) 6 (6 - 1) : ℤ) +
        (segWidth (117 - 2 * 2) 6 (6 - 1) : ℤ) =
      ((320 : ℤ) - (117 : ℤ)).tdiv 2 + ((117 : ℕ) : ℤ) - ((2 : ℕ) : ℤ) := by
  obtain ⟨h1, _, h3, h4⟩ :=
    sophia_c1_partition_amended 320 117 2 6 (by norm_num) (by norm_num)
  exact ⟨h1, h3 5 (by norm_num), h4⟩

/-! Section: C8: the debug mood cycler -/

/-- Closed form of the debug cycler run: after `k` one-millisecond ticks
the index is `(k / 5000) % 5` and the next switch is armed at the end of
the current 5-second hold. -/
lemma dbgRun_closed_form (t0 : ℕ) :
    ∀ k : ℕ, (dbgRun t0 k).idx = (k / 5000) % 5 ∧
      (dbgRun t0 k).next = t0 + 5000 * (k / 5000) + 5000 := by
  intro k
  induction k with
  | zero => exact ⟨rfl, rfl⟩
  | succ k ih =>
      obtain ⟨h1, h2⟩ := ih
      show (dbgTick (t0 + k + 1) (dbgRun t0 k)).idx = _ ∧
           (dbgTick (t0 + k + 1) (dbgRun t0 k)).next = _
      unfold dbgTick
      by_cases hc : (dbgRun t0 k).next ≤ t0 + k + 1
      · rw [if_pos hc]
        rw [h2] at hc
        simp only [h1, DEBUG_MOODS, DEBUG_MOOD_HOLD_MS, List.length_cons,
          List.length_nil]
        constructor <;> omega
      · rw [if_neg hc]
        rw [h2] at hc
        rw [h1, h2]
        constructor <;> [skip; skip] <;> omega

/-- C8: in debug mode the cycler deterministically walks
Neutral, Smile, Frown, Puzzled, Oooh with a 5-second hold each, wrapping
back to Neutral after Oooh; the on-screen mood after `k` milliseconds is
`DEBUG_MOODS[(k / 5000) % 5]` with its text label `moodName` alongside —
so a 25-second run shows exactly that sequence once (and `k = 25000`
wraps back to Neutral). -/
theorem sophia_c8_debug_cycle (t0 k : ℕ) :
    (dbgRun t0 k).idx = (k / DEBUG_MOOD_HOLD_MS) % 5 ∧
    dbgShownMood t0 k = DEBUG_MOODS.getD ((k / DEBUG_MOOD_HOLD_MS) % 5) .Neutral ∧
    moodName (dbgShownMood t0 k) =
      moodName (DEBUG_MOODS.getD ((k / DEBUG_MOOD_HOLD_MS) % 5) .Neutral) ∧
    dbgShownMood t0 0 = .Neutral ∧
    dbgShownMood t0 (25000 * (k + 1)) = .Neutral := by
  show (dbgRun t0 k).idx = (k / 5000) % 5 ∧
    dbgShownMood t0 k = DEBUG_MOODS.getD ((k / 5000) % 5) .Neutral ∧
    moodName (dbgShownMood t0 k) =
      moodName (DEBUG_MOODS.getD ((k / 5000) % 5) .Neutral) ∧
    dbgShownMood t0 0 = .Neutral ∧
    dbgShownMood t0 (25000 * (k + 1)) = .Neutral
  have hcf := dbgRun_closed_form t0 k
  have hshown : dbgShownMood t0 k =
      DEBUG_MOODS.getD ((k / 5000) % 5) .Neutral := by
    unfold dbgShownMood
    rw [hcf.1]
  have h25 : dbgShownMood t0 (25000 * (k + 1)) = .Neutral := by
    unfold dbgShownMood
    rw [(dbgRun_closed_form t0 (25000 * (k + 1))).1]
    have hdiv : (25000 * (k + 1) / 5000) % 5 = 0 := by omega
    rw [hdiv]
    rfl
  exact ⟨hcf.1, hshown, by rw [hshown], rfl, h25⟩

/-! Section: C7: the USB serial-link command protocol -/

/-- C7: for every completed input line, `start smile` (case-insensitive,
after trimming) is answered with exactly `{"ack":"start_smile"}` and
raises the LED; `stop` with exactly `{"ack":"stop"}` and clears the LED;
any other non-empty trimmed token with exactly
`{"error":"unknown_cmd","cmd":"<token>"}` leaving the LED alone; every
non-empty line gets a reply (the handler never aborts), and the LED is
the only state, changed only by the two acknowledged commands. -/
theorem sophia_c7_serial_protocol (line : List Char) (led : Bool) :
    (lowerChars (trimChars line) = "start smile".data →
      processLine line led = some ("\x7b\"ack\":\"start_smile\"\x7d".data, true)) ∧
    (lowerChars (trimChars line) = "stop".data →
      processLine line led = some ("\x7b\"ack\":\"stop\"\x7d".data, false)) ∧
    (trimChars line ≠ [] → lowerChars (trimChars line) ≠ "start smile".data →
      lowerChars (trimChars line) ≠ "stop".data →
      processLine line led =
        some ("\x7b\"error\":\"unknown_cmd\",\"cmd\":\"".data ++ trimChars line
                ++ "\"\x7d".data, led)) ∧
    (line ≠ [] → (processLine line led).isSome = true) ∧
    (∀ out led', processLine line led = some (out, led') → led' ≠ led →
      out = "\x7b\"ack\":\"start_smile\"\x7d".data ∨
      out = "\x7b\"ack\":\"stop\"\x7d".data) := by
  by_cases hline : line = []
  · subst hline
    refine ⟨?_, ?_, ?_, ?_, ?_⟩
    · intro h; exact absurd h (by decide)
    · intro h; exact absurd h (by decide)
    · intro h; exact absurd rfl h
    · intro h; exact absurd rfl h
    · intro out led' h
      exact absurd h (by simp [processLine])
  · unfold processLine
    rw [if_neg hline]
    by_cases h1 : lowerChars (trimChars line) = "start smile".data
    · rw [if_pos h1]
      refine ⟨fun _ => rfl, ?_, ?_, fun _ => rfl, ?_⟩
      · intro h2; rw [h1] at h2; exact absurd h2 (by decide)
      · intro _ hne _; exact absurd h1 hne
      · intro out led' h _
        exact Or.inl (congrArg Prod.fst (Option.some_inj.mp h)).symm
    · rw [if_neg h1]
      by_cases h2 : lowerChars (trimChars line) = "stop".data
      · rw [if_pos h2]
        refine ⟨fun hc => absurd hc h1, fun _ => rfl, ?_, fun _ => rfl, ?_⟩
        · intro _ _ hne; exact absurd h2 hne
        · intro out led' h _
          exact Or.inr (congrArg Prod.fst (Option.some_inj.mp h)).symm
      · rw [if_neg h2]
        refine ⟨fun hc => absurd hc h1, fun hc => absurd hc h2,
                fun _ _ _ => rfl, fun _ => rfl, ?_⟩
        intro out led' h hled
        exact absurd (congrArg Prod.snd (Option.some_inj.mp h)).symm hled

/-- Witness for C7: the spec's scenarios — `"START SMILE"` answered with
exactly `{"ack":"start_smile"}` (LED raised), and `"dance"` answered with
exactly `{"error":"unknown_cmd","cmd":"dance"}` (LED untouched). -/
theorem sophia_c7_serial_protocol_witness :
    processLine "START SMILE".data false =
      some ("\x7b\"ack\":\"start_smile\"\x7d".data, true) ∧
    processLine "dance".data false =
      some ("\x7b\"error\":\"unknown_cmd\",\"cmd\":\"".data ++ trimChars "dance".data
              ++ "\"\x7d".data, false) := by
  constructor
  · exact (sophia_c7_serial_protocol "START SMILE".data false).1 (by decide)
  · exact (sophia_c7_serial_protocol "dance".data false).2.2.1
      (by decide) (by decide) (by decide)

end Sophia
